import Mathlib

/-!
Verification of the SmallString container (src/small_string/small_string.cpp).

The C++ class stores the first `BUFFER_LIMIT` bytes of a string in a fixed
inline buffer and spills the remaining bytes into a heap-allocated, doubling
`Fallback` vector.  This file embeds the class shallowly:

* bytes are modelled as `Nat`;
* the inline buffer `_buffer` and the fallback buffer are lists of cells whose
  length is the allocated capacity (uninitialised cells are modelled as `0`;
  no in-bounds operation ever reads an uninitialised cell);
* mutating member functions become functions returning the new object state;
  a function that can throw returns the pair of the state the object is left
  in at the throw point and an `Option SSErr` (`none` = normal return), which
  mirrors C++ exception propagation through the mutation sequence;
* the allocation in `Fallback::double_capacity` may fail (`std::bad_alloc`);
  this is modelled by a boolean oracle argument `ok` stating whether that
  allocation succeeds.  All other allocations in the claims under study are
  assumed to succeed.
-/

/-- Inline capacity of the container (`BUFFER_LIMIT` in the source). -/
def BUFFER_LIMIT : Nat := 22

/-- Initial capacity of the heap fallback (`FALLBACK_INITIAL_CAP`). -/
def FALLBACK_INITIAL_CAP : Nat := 10

/-- The error channel: `operator[]` throws `std::out_of_range` on a bad
index, the seeded `Fallback` constructor throws when the configured initial
capacity is zero, and `double_capacity` can see `std::bad_alloc`.
`ubNullDeref` is a modelling artefact marking the undefined behaviour of
dereferencing a null `_fb`; it is unreachable from states satisfying the
container invariant. -/
inductive SSErr : Type
  | outOfRange : SSErr
  | invalidCapacity : SSErr
  | badAlloc : SSErr
  | ubNullDeref : SSErr
deriving DecidableEq, Repr

/-- `SmallString::Fallback`: a raw growable char vector.  `fallback` models
the allocated cells (its length is always the allocated capacity in reachable
states), `size` the number of cells in use. -/
structure Fallback : Type where
  fallback : List Nat
  size : Nat
  capacity : Nat
deriving DecidableEq, Repr

/-- `Fallback::copy_chars(n, from, to)`: cells `[0, n)` of the destination
receive the corresponding source cells, later cells keep their value. -/
def Fallback.copy_chars (n : Nat) (src dst : List Nat) : List Nat :=
  src.take n ++ dst.drop n

/-- The seeded constructor `Fallback(const char* c)`: throws
`InvalidCapacity` when the configured initial capacity is zero, otherwise
allocates `FALLBACK_INITIAL_CAP` cells and writes the byte at cell 0. -/
def Fallback.seed (c : Nat) : Except SSErr Fallback :=
  if FALLBACK_INITIAL_CAP = 0 then
    .error .invalidCapacity
  else
    .ok { fallback := (List.replicate FALLBACK_INITIAL_CAP 0).set 0 c
          size := 1
          capacity := FALLBACK_INITIAL_CAP }

/-- `Fallback::double_capacity`: allocate `capacity * 2` cells (this is the
allocation governed by the oracle `ok`; it is the first statement, so on
failure the object is untouched), then set `capacity *= 2`, copy the first
`size` cells into the new buffer, free the old buffer and swap the pointer. -/
def Fallback.double_capacity (ok : Bool) (f : Fallback) : Fallback × Option SSErr :=
  if ok then
    ({ fallback := Fallback.copy_chars f.size f.fallback (List.replicate (f.capacity * 2) 0)
       size := f.size
       capacity := f.capacity * 2 }, none)
  else
    (f, some .badAlloc)

/-- `Fallback::append_char`: grow when full (an exception from the growth
propagates, leaving the object as the growth left it), then write the byte
at cell `size` and increment `size`. -/
def Fallback.append_char (ok : Bool) (c : Nat) (f : Fallback) : Fallback × Option SSErr :=
  if f.size = f.capacity then
    match f.double_capacity ok with
    | (f1, none) => ({ f1 with fallback := f1.fallback.set f1.size c, size := f1.size + 1 }, none)
    | (f1, some e) => (f1, some e)
  else
    ({ f with fallback := f.fallback.set f.size c, size := f.size + 1 }, none)

/-- The `SmallString` container: logical size `_size`, the 22-cell inline
buffer `_buffer`, and the optional owning pointer `_fb` to the fallback. -/
structure SmallString : Type where
  size : Nat
  buffer : List Nat
  fb : Option Fallback
deriving DecidableEq, Repr

/-- The default constructor `SmallString()`: size 0, null fallback pointer.
The inline buffer is uninitialised; its cells are modelled as `0`. -/
def SmallString.new : SmallString :=
  { size := 0, buffer := List.replicate BUFFER_LIMIT 0, fb := none }

/-- `SmallString::length()`. -/
def SmallString.length (s : SmallString) : Nat :=
  s.size

/-- `SmallString::append_char`: the three-way routing on `_size` versus
`BUFFER_LIMIT`.  At equality a fresh seeded `Fallback` is attached (an
exception from its constructor leaves `_size` unchanged); above the limit
the byte is delegated to the existing fallback (`_fb->append_char(c)`, then
`++_size`, skipped when the delegate throws); below the limit the byte goes
into the inline buffer. -/
def SmallString.append_char (ok : Bool) (c : Nat) (s : SmallString) : SmallString × Option SSErr :=
  if s.size = BUFFER_LIMIT then
    match Fallback.seed c with
    | .ok f => ({ s with fb := some f, size := s.size + 1 }, none)
    | .error e => (s, some e)
  else if BUFFER_LIMIT < s.size then
    match s.fb with
    | some f =>
        match f.append_char ok c with
        | (f1, none) => ({ s with fb := some f1, size := s.size + 1 }, none)
        | (f1, some e) => ({ s with fb := some f1 }, some e)
    | none => (s, some .ubNullDeref)
  else
    ({ s with buffer := s.buffer.set s.size c, size := s.size + 1 }, none)

/-- `append_char` under the assumption that every allocation succeeds: the
state after a normal return. -/
def SmallString.append_char1 (c : Nat) (s : SmallString) : SmallString :=
  (s.append_char true c).1

/-- `SmallString::operator[]` (const): throws `OutOfRange` for `i >= _size`,
otherwise reads the inline buffer (`i < BUFFER_LIMIT`) or the fallback at
offset `i - BUFFER_LIMIT`.  The function is const: it never changes the
object, which the embedding reflects by returning only the read byte. -/
def SmallString.index (s : SmallString) (i : Nat) : Except SSErr Nat :=
  if s.size ≤ i then
    .error .outOfRange
  else if i < BUFFER_LIMIT then
    .ok (s.buffer.getD i 0)
  else
    match s.fb with
    | some f => .ok (f.fallback.getD (i - BUFFER_LIMIT) 0)
    | none => .error .ubNullDeref

/-- The byte produced by an in-bounds `operator[]` read. -/
def SmallString.read (s : SmallString) (i : Nat) : Nat :=
  if i < BUFFER_LIMIT then
    s.buffer.getD i 0
  else
    match s.fb with
    | some f => f.fallback.getD (i - BUFFER_LIMIT) 0
    | none => 0

/-- The abstract byte sequence held by a container: the bytes an in-bounds
`operator[]` traversal observes. -/
def SmallString.content (s : SmallString) : List Nat :=
  (List.range s.size).map s.read

/-- `SmallString::empty()`: delete the fallback, null the pointer, reset
`_size` to 0.  The inline buffer keeps its bytes. -/
def SmallString.clear (s : SmallString) : SmallString :=
  { s with size := 0, fb := none }

/-- `SmallString::append(const char*)`: append each byte of the sequence in
order via `append_char` (the sequence abstracts the NUL-free C string of
length `strlen(literal)`). -/
def SmallString.append (s : SmallString) (l : List Nat) : SmallString :=
  l.foldl (fun t c => t.append_char1 c) s

/-- The literal constructor `SmallString(const char*)`: default-construct,
then `append`. -/
def SmallString.fromLit (l : List Nat) : SmallString :=
  SmallString.new.append l

/-- The copy constructor: default-construct, then for `i` in
`[0, other.length())` read `other[i]` and `append_char` it. -/
def SmallString.copyCtor (other : SmallString) : SmallString :=
  (List.range other.length).foldl (fun t i => t.append_char1 (other.read i)) SmallString.new

/-- The move constructor, returning (the new object, the moved-from source):
steal `_size` and zero the source's, copy all `BUFFER_LIMIT` inline cells
verbatim into the (uninitialised) new buffer, steal the fallback pointer and
null the source's.  No allocation happens. -/
def SmallString.moveCtor (other : SmallString) : SmallString × SmallString :=
  ({ size := other.size
     buffer := Fallback.copy_chars BUFFER_LIMIT other.buffer (List.replicate BUFFER_LIMIT 0)
     fb := other.fb },
   { size := 0, buffer := other.buffer, fb := none })

/-- The copy-assignment operator for distinct objects: `empty()` the
destination, then read and append every byte of `rhs`. -/
def SmallString.copyAssign (dst rhs : SmallString) : SmallString :=
  (List.range rhs.length).foldl (fun t i => t.append_char1 (rhs.read i)) dst.clear

/-- The copy-assignment operator applied to the object itself (`a = a`),
traced with `rhs` aliasing `this`: after `empty()` the aliased `rhs` has
length 0, so the cached `length` is 0 and the copy loop body never runs. -/
def SmallString.copyAssignSelf (a : SmallString) : SmallString :=
  let a1 := a.clear
  (List.range a1.length).foldl (fun t i => t.append_char1 (t.read i)) a1

/-- The move-assignment operator for distinct objects, returning (the
destination, the moved-from source, the list of `Fallback` stores the
operation freed).  The source code copies `rhs`'s fields exactly as the move
constructor does and performs no `delete`, so the freed list is empty: the
destination's previous fallback is overwritten without being released. -/
def SmallString.moveAssign (dst rhs : SmallString) : SmallString × SmallString × List Fallback :=
  ({ size := rhs.size
     buffer := Fallback.copy_chars BUFFER_LIMIT rhs.buffer dst.buffer
     fb := rhs.fb },
   { size := 0, buffer := rhs.buffer, fb := none },
   [])

/-- The move-assignment operator applied to the object itself, traced with
`rhs` aliasing `this`: `_size = rhs._size` is the identity, `rhs._size = 0`
zeroes the shared size, the buffer self-copy is the identity, `_fb =
rhs._fb` is the identity and `rhs._fb = nullptr` nulls the shared pointer
(the previously owned fallback, if any, is neither freed nor kept). -/
def SmallString.selfMoveAssign (a : SmallString) : SmallString :=
  { size := 0
    buffer := Fallback.copy_chars BUFFER_LIMIT a.buffer a.buffer
    fb := none }

/-- `operator==(const SmallString&, const char*)`: for every `i` below the
container's length compare `lhs[i]` with `rhs[i]` and return false on a
mismatch; return true after the loop.  The literal is modelled as its byte
list; `getD _ 0` also models the terminating NUL read at position
`rhs.length`.  The lengths themselves are never compared. -/
def SmallString.eqLit (lhs : SmallString) (rhs : List Nat) : Bool :=
  (List.range lhs.length).all (fun i => lhs.read i = rhs.getD i 0)

/-- `operator==(const char*, const SmallString&)`: `return (rhs == lhs);`. -/
def SmallString.litEq (lhs : List Nat) (rhs : SmallString) : Bool :=
  rhs.eqLit lhs

/-- The container invariant of spec section 3: the inline buffer spans
exactly `BUFFER_LIMIT` cells; when `length <= INLINE_CAP` the heap store is
absent; when `length > INLINE_CAP` it is present, holds exactly the
overflowing `length - INLINE_CAP` bytes, and is internally consistent
(`size <= capacity`, positive capacity, buffer of `capacity` cells). -/
def SmallString.Inv (s : SmallString) : Prop :=
  s.buffer.length = BUFFER_LIMIT ∧
  (s.size ≤ BUFFER_LIMIT → s.fb = none) ∧
  (BUFFER_LIMIT < s.size →
    ∃ f, s.fb = some f ∧ f.size = s.size - BUFFER_LIMIT ∧
      f.fallback.length = f.capacity ∧ f.size ≤ f.capacity ∧ 0 < f.capacity)

/-- `s` represents the abstract byte sequence `L`: the invariant together
with the statement that byte `i` of `L` lives inline for `i < BUFFER_LIMIT`
and in the fallback at offset `i - BUFFER_LIMIT` otherwise. -/
def SmallString.Represents (s : SmallString) (L : List Nat) : Prop :=
  s.size = L.length ∧
  s.buffer.length = BUFFER_LIMIT ∧
  (∀ i, i < L.length → i < BUFFER_LIMIT → s.buffer.getD i 0 = L.getD i 0) ∧
  (L.length ≤ BUFFER_LIMIT → s.fb = none) ∧
  (BUFFER_LIMIT < L.length →
    ∃ f, s.fb = some f ∧ f.size = L.length - BUFFER_LIMIT ∧
      f.fallback.length = f.capacity ∧ f.size ≤ f.capacity ∧ 0 < f.capacity ∧
      (∀ j, j < f.size → f.fallback.getD j 0 = L.getD (BUFFER_LIMIT + j) 0))

/-! ### Helper lemmas on list cells -/

theorem getD_set_self (l : List Nat) (i : Nat) (a : Nat) (h : i < l.length) :
    (l.set i a).getD i 0 = a := by
  simp [List.getD_eq_getElem?_getD, List.getElem?_set, h]

theorem getD_set_ne (l : List Nat) {i j : Nat} (h : i ≠ j) (a : Nat) :
    (l.set i a).getD j 0 = l.getD j 0 := by
  simp [List.getD_eq_getElem?_getD, List.getElem?_set, h]

theorem getD_append_left {l l' : List Nat} {n : Nat} (h : n < l.length) :
    (l ++ l').getD n 0 = l.getD n 0 :=
  List.getD_append l l' 0 n h

theorem getD_append_right {l l' : List Nat} {n : Nat} (h : l.length ≤ n) :
    (l ++ l').getD n 0 = l'.getD (n - l.length) 0 := by
  simp [List.getD_eq_getElem?_getD, List.getElem?_append_right h]

theorem getD_take {l : List Nat} {n j : Nat} (h : j < n) :
    (List.take n l).getD j 0 = l.getD j 0 := by
  simp [List.getD_eq_getElem?_getD, List.getElem?_take, h]

theorem getD_snoc_last (L : List Nat) (c : Nat) : (L ++ [c]).getD L.length 0 = c := by
  rw [getD_append_right (Nat.le_refl _), Nat.sub_self]
  rfl

/-! ### Characterisation of the append paths -/

theorem Fallback.append_char_full {f : Fallback} (h : f.size = f.capacity) (c : Nat) :
    f.append_char true c =
      ({ fallback :=
           (Fallback.copy_chars f.size f.fallback (List.replicate (f.capacity * 2) 0)).set f.size c
         size := f.size + 1
         capacity := f.capacity * 2 }, none) := by
  unfold Fallback.append_char Fallback.double_capacity
  rw [if_pos h]
  rfl

theorem Fallback.append_char_room {f : Fallback} (h : f.size ≠ f.capacity) (c : Nat) :
    f.append_char true c =
      ({ f with fallback := f.fallback.set f.size c, size := f.size + 1 }, none) := by
  unfold Fallback.append_char
  rw [if_neg h]

theorem Fallback.append_char_true_snd (f : Fallback) (c : Nat) :
    f.append_char true c = ((f.append_char true c).1, none) := by
  by_cases h : f.size = f.capacity
  · rw [Fallback.append_char_full h]
  · rw [Fallback.append_char_room h]

theorem SmallString.append_char_lt {s : SmallString} (h : s.size < BUFFER_LIMIT) (c : Nat) :
    s.append_char1 c = { s with buffer := s.buffer.set s.size c, size := s.size + 1 } := by
  unfold SmallString.append_char1 SmallString.append_char
  rw [if_neg (Nat.ne_of_lt h), if_neg (Nat.not_lt.2 (Nat.le_of_lt h))]

theorem SmallString.append_char_boundary {s : SmallString} (h : s.size = BUFFER_LIMIT) (c : Nat) :
    s.append_char1 c =
      { s with
        fb := some { fallback := (List.replicate FALLBACK_INITIAL_CAP 0).set 0 c
                     size := 1
                     capacity := FALLBACK_INITIAL_CAP }
        size := s.size + 1 } := by
  unfold SmallString.append_char1 SmallString.append_char
  rw [if_pos h]
  rfl

theorem SmallString.append_char_gt {s : SmallString} {f : Fallback}
    (h : BUFFER_LIMIT < s.size) (hfb : s.fb = some f) (c : Nat) :
    s.append_char true c =
      ({ s with fb := some (f.append_char true c).1, size := s.size + 1 }, none) := by
  unfold SmallString.append_char
  rw [if_neg (ne_of_gt h), if_pos h]
  by_cases hfull : f.size = f.capacity
  · simp only [hfb, Fallback.append_char_full hfull]
  · simp only [hfb, Fallback.append_char_room hfull]

theorem SmallString.append_char1_gt {s : SmallString} {f : Fallback}
    (h : BUFFER_LIMIT < s.size) (hfb : s.fb = some f) (c : Nat) :
    s.append_char1 c = { s with fb := some (f.append_char true c).1, size := s.size + 1 } := by
  unfold SmallString.append_char1
  rw [SmallString.append_char_gt h hfb]

/-! ### Representation preservation -/

theorem SmallString.represents_new : SmallString.new.Represents [] := by
  refine ⟨rfl, by simp [SmallString.new], ?_, fun _ => rfl, ?_⟩
  · intro i hi
    exact absurd hi (Nat.not_lt_zero i)
  · intro hi
    exact absurd hi (by decide)

theorem SmallString.represents_append_char1 {s : SmallString} {L : List Nat}
    (h : s.Represents L) (c : Nat) : (s.append_char1 c).Represents (L ++ [c]) := by
  obtain ⟨hsz, hbl, hinl, hlo, hhi⟩ := h
  have hLlen : (L ++ [c]).length = L.length + 1 := by simp
  rcases Nat.lt_trichotomy s.size BUFFER_LIMIT with hlt | heq | hgt
  · -- inline write
    rw [SmallString.append_char_lt hlt]
    refine ⟨by simp [hsz], by simpa using hbl, ?_, ?_, ?_⟩
    · intro i hi hi22
      rcases Nat.lt_or_ge i L.length with hiL | hiL
      · rw [getD_set_ne s.buffer (by omega) c, getD_append_left hiL]
        exact hinl i hiL hi22
      · have hieq : i = L.length := by omega
        rw [hieq, getD_snoc_last, ← hsz]
        exact getD_set_self s.buffer s.size c (by omega)
    · intro hle
      exact hlo (by omega)
    · intro hgt
      exact absurd hgt (by omega)
  · -- overflow transition: a fresh seeded fallback is attached
    rw [SmallString.append_char_boundary heq]
    have hL22 : L.length = BUFFER_LIMIT := by omega
    refine ⟨by simp [hsz], hbl, ?_, ?_, ?_⟩
    · intro i hi hi22
      rw [getD_append_left (by omega)]
      exact hinl i (by omega) hi22
    · intro hle
      rw [hLlen] at hle
      omega
    · intro _
      refine ⟨_, rfl, ?_, ?_, ?_, ?_, ?_⟩
      · simp [hLlen, hL22]
      · simp [FALLBACK_INITIAL_CAP]
      · simp [FALLBACK_INITIAL_CAP]
      · simp [FALLBACK_INITIAL_CAP]
      · intro j hj
        have hj0 : j = 0 := by simpa [FALLBACK_INITIAL_CAP] using hj
        subst hj0
        rw [getD_set_self _ 0 c (by simp [FALLBACK_INITIAL_CAP]), ← hL22, Nat.add_zero,
          getD_snoc_last]
  · -- delegation to the existing fallback
    have hLgt : BUFFER_LIMIT < L.length := by omega
    obtain ⟨f, hfb, hfsz, hflen, hfle, hfpos, hfcont⟩ := hhi hLgt
    rw [SmallString.append_char1_gt hgt hfb]
    refine ⟨by simp [hsz], hbl, ?_, ?_, ?_⟩
    · intro i hi hi22
      rw [getD_append_left (by omega)]
      exact hinl i (by omega) hi22
    · intro hle
      rw [hLlen] at hle
      omega
    · intro _
      by_cases hfull : f.size = f.capacity
    -- the two growth regimes of the fallback
      · rw [Fallback.append_char_full hfull]
        refine ⟨_, rfl, by simp [hLlen]; omega, ?_, by simp; omega, by simp; omega, ?_⟩
        · simp only [List.length_set]
          unfold Fallback.copy_chars
          simp [hflen, hfull]
          omega
        · intro j hj
          simp only at hj ⊢
          unfold Fallback.copy_chars
          rcases Nat.lt_or_ge j f.size with hjf | hjf
          · rw [getD_set_ne _ (by omega) c, getD_append_left (by simp [hflen, hfull]; omega),
              getD_take hjf, getD_append_left (by omega)]
            exact hfcont j hjf
          · have hjeq : j = f.size := by omega
            have hjlen :
                f.size < (List.take f.size f.fallback ++
                  (List.replicate (f.capacity * 2) 0).drop f.size).length := by
              simp [hflen, hfull]
              omega
            rw [hjeq, getD_set_self _ f.size c hjlen]
            have hfL : BUFFER_LIMIT + f.size = L.length := by omega
            rw [hfL, getD_snoc_last]
      · have hroom : f.size < f.capacity := Nat.lt_of_le_of_ne hfle hfull
        rw [Fallback.append_char_room hfull]
        refine ⟨_, rfl, by simp [hLlen]; omega, by simp [hflen], by simp; omega,
          by simp; omega, ?_⟩
        intro j hj
        simp only at hj ⊢
        rcases Nat.lt_or_ge j f.size with hjf | hjf
        · rw [getD_set_ne _ (by omega) c, getD_append_left (by omega)]
          exact hfcont j hjf
        · have hjeq : j = f.size := by omega
          rw [hjeq, getD_set_self _ f.size c (by omega)]
          have hfL : BUFFER_LIMIT + f.size = L.length := by omega
          rw [hfL, getD_snoc_last]

theorem SmallString.represents_append {s : SmallString} {L : List Nat} (h : s.Represents L)
    (l : List Nat) : (s.append l).Represents (L ++ l) := by
  induction l generalizing s L with
  | nil => simpa using h
  | cons c t ih =>
      have h2 := ih (SmallString.represents_append_char1 h c)
      simpa [SmallString.append] using h2

theorem SmallString.represents_fromLit (l : List Nat) :
    (SmallString.fromLit l).Represents l := by
  simpa using SmallString.represents_append SmallString.represents_new l

theorem SmallString.read_spec {s : SmallString} {L : List Nat} (h : s.Represents L)
    {i : Nat} (hi : i < L.length) : s.read i = L.getD i 0 := by
  obtain ⟨hsz, hbl, hinl, hlo, hhi⟩ := h
  unfold SmallString.read
  by_cases h22 : i < BUFFER_LIMIT
  · rw [if_pos h22]
    exact hinl i hi h22
  · rw [if_neg h22]
    obtain ⟨f, hfb, hfsz, hflen, hfle, hfpos, hfcont⟩ := hhi (by omega)
    simp only [hfb]
    have h2 := hfcont (i - BUFFER_LIMIT) (by omega)
    rw [h2, Nat.add_sub_cancel' (Nat.le_of_not_lt h22)]

theorem SmallString.index_spec {s : SmallString} {L : List Nat} (h : s.Represents L)
    {i : Nat} (hi : i < L.length) : s.index i = .ok (L.getD i 0) := by
  obtain ⟨hsz, hbl, hinl, hlo, hhi⟩ := h
  unfold SmallString.index
  rw [if_neg (by omega)]
  by_cases h22 : i < BUFFER_LIMIT
  · rw [if_pos h22, hinl i hi h22]
  · rw [if_neg h22]
    obtain ⟨f, hfb, hfsz, hflen, hfle, hfpos, hfcont⟩ := hhi (by omega)
    simp only [hfb]
    have h2 := hfcont (i - BUFFER_LIMIT) (by omega)
    rw [h2, Nat.add_sub_cancel' (Nat.le_of_not_lt h22)]

theorem SmallString.index_oob {s : SmallString} {i : Nat} (h : s.length ≤ i) :
    s.index i = .error .outOfRange := by
  have h2 : s.size ≤ i := h
  unfold SmallString.index
  rw [if_pos h2]

theorem SmallString.represents_inv {s : SmallString} {L : List Nat}
    (h : s.Represents L) : s.Inv := by
  obtain ⟨hsz, hbl, hinl, hlo, hhi⟩ := h
  refine ⟨hbl, fun hle => hlo (by omega), fun hgt => ?_⟩
  obtain ⟨f, hfb, hfsz, hflen, hfle, hfpos, _⟩ := hhi (by omega)
  exact ⟨f, hfb, by omega, hflen, hfle, hfpos⟩

theorem getD_map_range {f : Nat → Nat} {n i : Nat} (h : i < n) :
    ((List.range n).map f).getD i 0 = f i := by
  simp [List.getD_eq_getElem?_getD, List.getElem?_map, List.getElem?_range h]

theorem SmallString.inv_represents_content {s : SmallString} (h : s.Inv) :
    s.Represents s.content := by
  obtain ⟨hbl, hlo, hhi⟩ := h
  have hclen : s.content.length = s.size := by simp [SmallString.content]
  refine ⟨hclen.symm, hbl, ?_, ?_, ?_⟩
  · intro i hi hi22
    rw [hclen] at hi
    show s.buffer.getD i 0 = s.content.getD i 0
    rw [SmallString.content, getD_map_range hi]
    unfold SmallString.read
    rw [if_pos hi22]
  · intro hle
    rw [hclen] at hle
    exact hlo hle
  · intro hgt
    rw [hclen] at hgt
    obtain ⟨f, hfb, hfsz, hflen, hfle, hfpos⟩ := hhi hgt
    refine ⟨f, hfb, by omega, hflen, hfle, hfpos, ?_⟩
    intro j hj
    show f.fallback.getD j 0 = s.content.getD (BUFFER_LIMIT + j) 0
    rw [SmallString.content, getD_map_range (by omega)]
    unfold SmallString.read
    rw [if_neg (by omega)]
    simp only [hfb]
    rw [Nat.add_sub_cancel_left]

theorem SmallString.represents_content_eq {s : SmallString} {L : List Nat}
    (h : s.Represents L) : s.content = L := by
  have hsz := h.1
  apply List.ext_getElem (by simp [SmallString.content, hsz])
  intro n h1 h2
  have hn : n < L.length := h2
  have hn2 : n < s.size := by
    simpa [SmallString.content] using h1
  have h3 : s.content.getD n 0 = s.read n := by
    rw [SmallString.content, getD_map_range hn2]
  calc s.content[n] = s.content.getD n 0 := (List.getD_eq_getElem _ _ h1).symm
  _ = L.getD n 0 := by rw [h3, SmallString.read_spec h hn]
  _ = L[n] := List.getD_eq_getElem _ _ h2

theorem SmallString.inv_append_char1 {s : SmallString} (h : s.Inv) (c : Nat) :
    (s.append_char1 c).Inv :=
  SmallString.represents_inv
    (SmallString.represents_append_char1 (SmallString.inv_represents_content h) c)

/-! ### The remaining special member functions -/

theorem copy_chars_self (l : List Nat) (n : Nat) : Fallback.copy_chars n l l = l :=
  List.take_append_drop n l

theorem copy_chars_id {src dst : List Nat} (hs : src.length = BUFFER_LIMIT)
    (hd : dst.length ≤ BUFFER_LIMIT) :
    Fallback.copy_chars BUFFER_LIMIT src dst = src := by
  unfold Fallback.copy_chars
  rw [List.take_of_length_le (le_of_eq hs), List.drop_eq_nil_of_le (by omega),
    List.append_nil]

theorem SmallString.represents_clear {s : SmallString}
    (h : s.buffer.length = BUFFER_LIMIT) : s.clear.Represents [] := by
  refine ⟨rfl, h, ?_, fun _ => rfl, ?_⟩
  · intro i hi
    exact absurd hi (Nat.not_lt_zero i)
  · intro hi
    exact absurd hi (by decide)

theorem SmallString.copyCtor_eq_fromLit (a : SmallString) :
    a.copyCtor = SmallString.fromLit a.content := by
  unfold SmallString.copyCtor SmallString.fromLit SmallString.append SmallString.content
  rw [List.foldl_map]
  rfl

theorem SmallString.represents_copyCtor {a : SmallString} {L : List Nat}
    (h : a.Represents L) : a.copyCtor.Represents L := by
  rw [SmallString.copyCtor_eq_fromLit, SmallString.represents_content_eq h]
  exact SmallString.represents_fromLit L

theorem SmallString.copyAssign_eq (dst rhs : SmallString) :
    dst.copyAssign rhs = dst.clear.append rhs.content := by
  unfold SmallString.copyAssign SmallString.append SmallString.content
  rw [List.foldl_map]
  rfl

theorem SmallString.represents_copyAssign {dst rhs : SmallString} {L : List Nat}
    (hd : dst.buffer.length = BUFFER_LIMIT) (h : rhs.Represents L) :
    (dst.copyAssign rhs).Represents L := by
  rw [SmallString.copyAssign_eq, SmallString.represents_content_eq h]
  simpa using SmallString.represents_append (SmallString.represents_clear hd) L

theorem SmallString.moveCtor_fst {a : SmallString} (h : a.buffer.length = BUFFER_LIMIT) :
    a.moveCtor.1 = a := by
  unfold SmallString.moveCtor
  rw [copy_chars_id h (by simp)]

theorem SmallString.moveCtor_snd (a : SmallString) :
    a.moveCtor.2 = { size := 0, buffer := a.buffer, fb := none } :=
  rfl

theorem SmallString.selfMoveAssign_eq (a : SmallString) : a.selfMoveAssign = a.clear := by
  unfold SmallString.selfMoveAssign SmallString.clear
  rw [copy_chars_self]

theorem SmallString.moveAssign_fst {dst rhs : SmallString}
    (hs : rhs.buffer.length = BUFFER_LIMIT) (hd : dst.buffer.length = BUFFER_LIMIT) :
    (dst.moveAssign rhs).1 = rhs := by
  unfold SmallString.moveAssign
  rw [copy_chars_id hs (le_of_eq hd)]

theorem SmallString.moveAssign_snd (dst rhs : SmallString) :
    (dst.moveAssign rhs).2.1 = { size := 0, buffer := rhs.buffer, fb := none } :=
  rfl

/-! ### The claims -/

/-- C1: for every byte sequence `S`, constructing a container from `S` and
then reading `index(i)` for every `i < len(S)` reproduces `S` exactly, and
`length()` equals `len(S)`, whether or not `S` crosses the inline/heap
boundary. -/
theorem C1_roundtrip (S : List Nat) (i : Nat) :
    (SmallString.fromLit S).length = S.length ∧
    (i < S.length → (SmallString.fromLit S).index i = .ok (S.getD i 0)) := by
  have h := SmallString.represents_fromLit S
  exact ⟨h.1, fun hi => SmallString.index_spec h hi⟩

theorem C1_roundtrip_witness :
    (SmallString.fromLit (List.range 23)).length = 23 ∧
    (SmallString.fromLit (List.range 23)).index 22 = .ok 22 :=
  ⟨(C1_roundtrip (List.range 23) 22).1, (C1_roundtrip (List.range 23) 22).2 (by decide)⟩

/-- C2: `append_char` routes by a strict three-way comparison of `_size`
against `BUFFER_LIMIT = 22`: a container built from a 22-byte sequence has
no heap store; appending the 23rd byte creates one heap store seeded with
that byte and yields `length() = 23`; every later append delegates to the
existing heap store. -/
theorem C2_boundary (S : List Nat) (b c : Nat) (s : SmallString) (f : Fallback) :
    BUFFER_LIMIT = 22 ∧
    (S.length = BUFFER_LIMIT →
      (SmallString.fromLit S).fb = none ∧
      (SmallString.fromLit S).length = BUFFER_LIMIT) ∧
    (S.length = BUFFER_LIMIT →
      ((SmallString.fromLit S).append_char1 b).length = 23 ∧
      ((SmallString.fromLit S).append_char1 b).fb =
        some { fallback := (List.replicate FALLBACK_INITIAL_CAP 0).set 0 b
               size := 1
               capacity := FALLBACK_INITIAL_CAP }) ∧
    (BUFFER_LIMIT < s.size → s.fb = some f →
      s.append_char true c =
        ({ s with fb := some (f.append_char true c).1, size := s.size + 1 }, none)) := by
  refine ⟨rfl, ?_, ?_, ?_⟩
  · intro h22
    have h := SmallString.represents_fromLit S
    exact ⟨h.2.2.2.1 (le_of_eq h22), by
      show (SmallString.fromLit S).size = BUFFER_LIMIT
      rw [h.1, h22]⟩
  · intro h22
    have h := SmallString.represents_fromLit S
    have hsz : (SmallString.fromLit S).size = BUFFER_LIMIT := by rw [h.1, h22]
    rw [SmallString.append_char_boundary hsz]
    refine ⟨?_, rfl⟩
    show (SmallString.fromLit S).size + 1 = 23
    rw [hsz]
    rfl
  · intro hgt hfb
    exact SmallString.append_char_gt hgt hfb c

theorem C2_boundary_witness :
    (SmallString.fromLit (List.range 22)).fb = none ∧
    ((SmallString.fromLit (List.range 22)).append_char1 7).length = 23 ∧
    (SmallString.fromLit (List.range 23)).append_char true 9 =
      ({ SmallString.fromLit (List.range 23) with
         fb := some ((⟨[22, 0, 0, 0, 0, 0, 0, 0, 0, 0], 1, 10⟩ : Fallback).append_char true 9).1
         size := 24 }, none) := by
  refine ⟨((C2_boundary (List.range 22) 7 9 SmallString.new ⟨[], 0, 0⟩).2.1 (by decide)).1,
    ((C2_boundary (List.range 22) 7 9 SmallString.new ⟨[], 0, 0⟩).2.2.1 (by decide)).1, ?_⟩
  exact (C2_boundary (List.range 22) 7 9 (SmallString.fromLit (List.range 23))
    ⟨[22, 0, 0, 0, 0, 0, 0, 0, 0, 0], 1, 10⟩).2.2.2 (by decide) (by decide)

/-- C3: if the allocation inside `double_capacity` fails, the `Fallback` is
left exactly in its prior state (capacity, buffer and size unchanged,
nothing freed), and the failure propagates through `append_char`: the
container is returned unchanged, its length not incremented and no byte
written. -/
theorem C3_grow_failure (f : Fallback) (s : SmallString) (c : Nat) :
    f.double_capacity false = (f, some .badAlloc) ∧
    (f.size = f.capacity → f.append_char false c = (f, some .badAlloc)) ∧
    (BUFFER_LIMIT < s.size → s.fb = some f → f.size = f.capacity →
      s.append_char false c = (s, some .badAlloc)) := by
  have hfa : f.size = f.capacity → f.append_char false c = (f, some .badAlloc) := by
    intro hfull
    unfold Fallback.append_char Fallback.double_capacity
    rw [if_pos hfull]
    rfl
  refine ⟨rfl, hfa, ?_⟩
  intro hgt hfb hfull
  unfold SmallString.append_char
  rw [if_neg (ne_of_gt hgt), if_pos hgt]
  simp only [hfb, hfa hfull]
  rw [← hfb]

theorem C3_grow_failure_witness :
    (⟨[5, 6], 2, 2⟩ : Fallback).double_capacity false =
      (⟨[5, 6], 2, 2⟩, some .badAlloc) ∧
    SmallString.append_char false 9
        ⟨24, List.replicate 22 0, some ⟨[5, 6], 2, 2⟩⟩ =
      (⟨24, List.replicate 22 0, some ⟨[5, 6], 2, 2⟩⟩, some .badAlloc) := by
  refine ⟨(C3_grow_failure ⟨[5, 6], 2, 2⟩ SmallString.new 9).1, ?_⟩
  exact (C3_grow_failure ⟨[5, 6], 2, 2⟩ ⟨24, List.replicate 22 0, some ⟨[5, 6], 2, 2⟩⟩ 9).2.2
    (by decide) rfl rfl

/-- C4: the claim says self copy-assignment is a no-op.  The code has no
self-assignment guard: `operator=` first calls `empty()` on the destination
and then copies from `rhs`, which aliases the destination and is therefore
already empty — so `a = a` erases a non-empty container instead of
preserving it.  This theorem evaluates the traced self-assignment on the
failing input, a one-byte container: the content is lost. -/
theorem C4_selfCopyAssign_loses_content (a : SmallString) :
    a.copyAssignSelf = a.clear ∧
    (SmallString.fromLit [7]).length = 1 ∧
    (SmallString.fromLit [7]).copyAssignSelf.length = 0 :=
  ⟨rfl, rfl, rfl⟩

/-- C5: move-construction transfers the heap handle and copies the inline
buffer, so the new object reproduces the source's length and every byte
without allocating; the source afterwards has `length() = 0`, no heap
handle, satisfies the invariant, and can be appended to again. -/
theorem C5_moveCtor (a : SmallString) (L : List Nat) (c : Nat) (h : a.Represents L) :
    a.moveCtor.1 = a ∧
    a.moveCtor.1.length = L.length ∧
    (∀ i, i < L.length → a.moveCtor.1.index i = .ok (L.getD i 0)) ∧
    a.moveCtor.1.fb = a.fb ∧
    a.moveCtor.2.length = 0 ∧
    a.moveCtor.2.fb = none ∧
    a.moveCtor.2.Inv ∧
    (a.moveCtor.2.append_char true c).2 = none ∧
    (a.moveCtor.2.append_char1 c).Represents [c] := by
  have hfst := SmallString.moveCtor_fst h.2.1
  have hsnd : a.moveCtor.2 = a.clear := rfl
  have hc : a.clear.Represents [] := SmallString.represents_clear h.2.1
  refine ⟨hfst, ?_, ?_, ?_, rfl, rfl, ?_, ?_, ?_⟩
  · rw [hfst]
    exact h.1
  · intro i hi
    rw [hfst]
    exact SmallString.index_spec h hi
  · rw [hfst]
  · rw [hsnd]
    exact SmallString.represents_inv hc
  · rw [hsnd]
    unfold SmallString.append_char
    simp [SmallString.clear, BUFFER_LIMIT]
  · rw [hsnd]
    simpa using SmallString.represents_append_char1 hc c

theorem C5_moveCtor_witness :
    (SmallString.fromLit (List.range 23)).moveCtor.1.length = 23 ∧
    (SmallString.fromLit (List.range 23)).moveCtor.1.index 22 = .ok 22 ∧
    (SmallString.fromLit (List.range 23)).moveCtor.2.length = 0 ∧
    (SmallString.fromLit (List.range 23)).moveCtor.2.fb = none := by
  have h := C5_moveCtor (SmallString.fromLit (List.range 23)) (List.range 23) 5
    (SmallString.represents_fromLit (List.range 23))
  exact ⟨h.2.1, h.2.2.1 22 (by decide), h.2.2.2.2.1, h.2.2.2.2.2.1⟩

/-- C6: on every container state satisfying the representation predicate
(all states the public operations can reach), `index(i)` raises `OutOfRange`
exactly when `i >= length()`; otherwise it returns the inline byte for
`i < BUFFER_LIMIT` and the heap-store byte at offset `i - BUFFER_LIMIT` for
`i >= BUFFER_LIMIT`.  `operator[]` is const, so there is no state change:
the embedding returns only the read byte. -/
theorem C6_index (s : SmallString) (L : List Nat) (i : Nat) (h : s.Represents L) :
    ((∃ e, s.index i = .error e) ↔ s.length ≤ i) ∧
    (s.length ≤ i → s.index i = .error .outOfRange) ∧
    (i < s.length → i < BUFFER_LIMIT → s.index i = .ok (s.buffer.getD i 0)) ∧
    (i < s.length → BUFFER_LIMIT ≤ i →
      ∃ f, s.fb = some f ∧ s.index i = .ok (f.fallback.getD (i - BUFFER_LIMIT) 0)) := by
  have hlen : s.length = L.length := h.1
  refine ⟨⟨?_, fun hle => ⟨_, SmallString.index_oob hle⟩⟩,
    fun hle => SmallString.index_oob hle, ?_, ?_⟩
  · rintro ⟨e, he⟩
    by_contra hlt
    have hi : i < L.length := by omega
    rw [SmallString.index_spec h hi] at he
    exact Except.noConfusion he
  · intro hib hi22
    have hib2 : i < s.size := hib
    unfold SmallString.index
    rw [if_neg (Nat.not_le.2 hib2), if_pos hi22]
  · intro hib hi22
    have hib2 : i < s.size := hib
    have hszL : s.size = L.length := h.1
    obtain ⟨f, hfb, _, _, _, _, _⟩ := h.2.2.2.2 (by omega)
    refine ⟨f, hfb, ?_⟩
    unfold SmallString.index
    rw [if_neg (Nat.not_le.2 hib2), if_neg (Nat.not_lt.2 hi22)]
    simp only [hfb]

theorem C6_index_witness :
    (SmallString.fromLit []).index 0 = .error .outOfRange ∧
    (SmallString.fromLit (List.range 23)).index 23 = .error .outOfRange ∧
    (SmallString.fromLit (List.range 23)).index 3 =
      .ok ((SmallString.fromLit (List.range 23)).buffer.getD 3 0) := by
  refine ⟨(C6_index (SmallString.fromLit []) [] 0
      (SmallString.represents_fromLit [])).2.1 (by decide),
    (C6_index (SmallString.fromLit (List.range 23)) (List.range 23) 23
      (SmallString.represents_fromLit (List.range 23))).2.1 (by decide),
    (C6_index (SmallString.fromLit (List.range 23)) (List.range 23) 3
      (SmallString.represents_fromLit (List.range 23))).2.2.1 (by decide) (by decide)⟩

/-- C7: every public operation — default construction, construction from a
sequence, `append_char`, `append`, `clear`, copy- and move-construction,
copy- and move-assignment (including the aliased self-assignment paths) —
preserves the container invariant (`index` is const and has no state to
preserve; destruction leaves no object behind). -/
theorem C7_invariant (s dst : SmallString) (c : Nat) (l : List Nat)
    (hs : s.Inv) (hd : dst.Inv) :
    SmallString.new.Inv ∧
    (SmallString.fromLit l).Inv ∧
    (s.append_char1 c).Inv ∧
    (s.append l).Inv ∧
    s.clear.Inv ∧
    s.copyCtor.Inv ∧
    s.moveCtor.1.Inv ∧
    s.moveCtor.2.Inv ∧
    (dst.copyAssign s).Inv ∧
    s.copyAssignSelf.Inv ∧
    (dst.moveAssign s).1.Inv ∧
    (dst.moveAssign s).2.1.Inv ∧
    s.selfMoveAssign.Inv := by
  have hr := SmallString.inv_represents_content hs
  have hclear : s.clear.Inv :=
    SmallString.represents_inv (SmallString.represents_clear hs.1)
  refine ⟨SmallString.represents_inv SmallString.represents_new,
    SmallString.represents_inv (SmallString.represents_fromLit l),
    SmallString.inv_append_char1 hs c,
    SmallString.represents_inv (SmallString.represents_append hr l),
    hclear,
    SmallString.represents_inv (SmallString.represents_copyCtor hr),
    ?_, hclear,
    SmallString.represents_inv (SmallString.represents_copyAssign hd.1 hr),
    hclear, ?_, ?_, ?_⟩
  · rw [SmallString.moveCtor_fst hs.1]
    exact hs
  · rw [SmallString.moveAssign_fst hs.1 hd.1]
    exact hs
  · exact SmallString.represents_inv (SmallString.represents_clear hs.1)
  · rw [SmallString.selfMoveAssign_eq]
    exact hclear

theorem C7_invariant_witness :
    (SmallString.fromLit (List.range 23)).append_char1 9 |>.Inv :=
  (C7_invariant (SmallString.fromLit (List.range 23)) (SmallString.fromLit [4]) 9 [1, 2]
    (SmallString.represents_inv (SmallString.represents_fromLit (List.range 23)))
    (SmallString.represents_inv (SmallString.represents_fromLit [4]))).2.2.1

/-- C8: the claim says move-assignment releases the heap store the
destination previously owned.  The code performs no `delete` on the
destination's `_fb` before overwriting it with the source's handle, so the
freed-store list of the operation is empty on every path — even when the
destination, here a 23-byte container, owns a heap store.  That store is
leaked, contradicting the claim (the self-move clause — nothing about to be
reused is released — holds, but only because nothing is ever released). -/
theorem C8_moveAssign_never_frees (dst rhs : SmallString) :
    (dst.moveAssign rhs).2.2 = [] ∧
    (SmallString.fromLit (List.range 23)).fb ≠ none ∧
    ((SmallString.fromLit (List.range 23)).moveAssign (SmallString.fromLit [1])).2.2 = [] :=
  ⟨rfl, by decide, rfl⟩

/-- C9: the equality operator between a container and a literal compares
only the container's `length()` leading characters and never the lengths:
whenever the container's content is a strict prefix of a longer literal,
equality reports true in either argument order although the two differ. -/
theorem C9_eqLit_prefix (S ext : List Nat) (hne : ext ≠ []) :
    (SmallString.fromLit S).eqLit (S ++ ext) = true ∧
    SmallString.litEq (S ++ ext) (SmallString.fromLit S) = true ∧
    S ++ ext ≠ S := by
  have h := SmallString.represents_fromLit S
  have heq : (SmallString.fromLit S).eqLit (S ++ ext) = true := by
    unfold SmallString.eqLit
    rw [List.all_eq_true]
    intro i hi
    have hi2 : i < (SmallString.fromLit S).size := List.mem_range.1 hi
    have hiS : i < S.length := by
      rw [← h.1]
      exact hi2
    have hrd : (SmallString.fromLit S).read i = S.getD i 0 := SmallString.read_spec h hiS
    simp only [decide_eq_true_eq]
    rw [hrd, getD_append_left hiS]
  refine ⟨heq, heq, ?_⟩
  intro hcon
  have hlen := congrArg List.length hcon
  rw [List.length_append] at hlen
  have : ext.length = 0 := by omega
  exact hne (List.eq_nil_of_length_eq_zero this)

theorem C9_eqLit_prefix_witness :
    (SmallString.fromLit [1, 2]).eqLit [1, 2, 3] = true ∧
    SmallString.litEq [1, 2, 3] (SmallString.fromLit [1, 2]) = true := by
  have h := C9_eqLit_prefix [1, 2] [3] (by decide)
  exact ⟨h.1, h.2.1⟩

/-- C10: move-assigning a container into itself leaves it a valid empty
container: the traced aliased execution zeroes `_size` and nulls `_fb`, the
invariant holds, and a subsequent append succeeds (the resulting container
holds exactly the appended byte). -/
theorem C10_selfMoveAssign (a : SmallString) (c : Nat) (h : a.Inv) :
    a.selfMoveAssign.length = 0 ∧
    a.selfMoveAssign.fb = none ∧
    a.selfMoveAssign.Inv ∧
    (a.selfMoveAssign.append_char true c).2 = none ∧
    (a.selfMoveAssign.append_char1 c).Represents [c] := by
  rw [SmallString.selfMoveAssign_eq]
  have hc : a.clear.Represents [] := SmallString.represents_clear h.1
  refine ⟨rfl, rfl, SmallString.represents_inv hc, ?_, ?_⟩
  · unfold SmallString.append_char
    simp [SmallString.clear, BUFFER_LIMIT]
  · simpa using SmallString.represents_append_char1 hc c

theorem C10_selfMoveAssign_witness :
    (SmallString.fromLit (List.range 23)).selfMoveAssign.length = 0 ∧
    (SmallString.fromLit (List.range 23)).selfMoveAssign.fb = none ∧
    ((SmallString.fromLit (List.range 23)).selfMoveAssign.append_char true 4).2 = none := by
  have h := C10_selfMoveAssign (SmallString.fromLit (List.range 23)) 4
    (SmallString.represents_inv (SmallString.represents_fromLit (List.range 23)))
  exact ⟨h.1, h.2.1, h.2.2.2.1⟩
